import Mathlib

/-!
# Verification of the Splatoon 3 rotation tracker core

Shallow embedding of the background service worker of the rotation-tracker
extension (`utils.js`, the background worker, `salmonRun.js`).

Modelling conventions:
* Instants are integer milliseconds (`Int`), standing for the values produced
  by `new Date(s).getTime()` on the ISO strings of the feed.  A field that the
  feed may omit (or that is JS-falsy, which the code treats the same through
  `!x` / `?.`) is an `Option`.
* A nested `image?.url || null` chain is flattened to a single
  `Option String`, since no further structure of it is ever read.
* Stateful effects (alarms, storage writes, notification creation) are
  modelled as explicit values returned by the corresponding pure functions.
-/

namespace RotTrack

/-- `vsRule` objects: only the `name` field is ever read. -/
structure Rule where
  name : String
deriving DecidableEq, Repr

/-- A processed stage (and, for Salmon Run, weapon) record:
`{ name: stage.name, image: stage.image?.url || null }`. -/
structure VsStage where
  name : String
  image : Option String
deriving DecidableEq, Repr

/-- A raw feed stage entry; `image` models `image?.url`. -/
structure FeedStage where
  name : String
  image : Option String
deriving DecidableEq, Repr

/-- A `regularMatchSetting` / `xMatchSetting`-like match setting: rule plus
stage list, either of which may be missing. -/
structure MatchSetting where
  vsRule : Option Rule
  vsStages : Option (List FeedStage)
deriving DecidableEq, Repr

/-- `(setting.vsStages || []).map(stage => ({name, image: stage.image?.url || null}))` -/
def mapStages (stages : Option (List FeedStage)) : List VsStage :=
  (stages.getD []).map fun stage => ⟨stage.name, stage.image⟩

/-! ## The generic current/next scan (spec §4.1 "IntervalIndex")

The same loop body appears in `findCurrentAndNext`, `findCurrentAndNextAnarchy`
and (with a first-match rule for `current`) `processEventSchedules`:

```js
if (startMs <= nowMs && endMs > nowMs) \x7b current = processedNode; \x7d
else if (startMs > nowMs && (!next || startMs < new Date(next.startTime).getTime())) \x7b
  next = processedNode;
\x7d
```

It is factored here into one parametrised step function; each selector below
instantiates it with its own node type and per-node extraction (`proc`,
returning `none` exactly when the source skips the node for a missing time).
-/

/-- One iteration of the shared scan loop.  `so`/`eo` read the start/end
instant of a processed item, `proc` turns a raw node into a processed item
(`none` = the node is skipped). -/
def scanStep {γ α : Type} (so eo : α → Int) (now : Int) (proc : γ → Option α)
    (acc : Option α × Option α) (g : γ) : Option α × Option α :=
  match proc g with
  | none => acc
  | some p =>
    if so p ≤ now ∧ now < eo p then (some p, acc.2)
    else if now < so p ∧ (acc.2.all fun nx => decide (so p < so nx)) = true then (acc.1, some p)
    else acc

/-- The `current` update of the shared scan: a window containing `now`
overwrites the accumulator (last write wins). -/
def lastWinsStep {α : Type} (so eo : α → Int) (now : Int) (acc : Option α) (r : α) : Option α :=
  if so r ≤ now ∧ now < eo r then some r else acc

/-- Spec §4.1 wording for `current`: "the item whose window satisfies
start ≤ now < end; if multiple match, the later-sorted one wins, i.e. last
write wins during the scan". -/
def specLastContaining {α : Type} (so eo : α → Int) (now : Int) (l : List α) : Option α :=
  l.foldl (lastWinsStep so eo now) none

/-- The `current` update of the event-schedule scan: the code adds
`&& !current`, so the first window containing `now` wins there. -/
def firstWinsStep {α : Type} (so eo : α → Int) (now : Int) (acc : Option α) (r : α) : Option α :=
  if (so r ≤ now ∧ now < eo r) ∧ acc.isNone = true then some r else acc

/-- First window (in scan order) containing `now`. -/
def specFirstContaining {α : Type} (so eo : α → Int) (now : Int) (l : List α) : Option α :=
  l.foldl (firstWinsStep so eo now) none

/-- The `next` update of every scan: `startMs > nowMs && (!next || startMs <
next.startTime)`, i.e. a running strict minimum over future start times,
ties kept with the first item found. -/
def minNextStep {α : Type} (so : α → Int) (now : Int) (acc : Option α) (r : α) : Option α :=
  if now < so r ∧ (acc.all fun nx => decide (so r < so nx)) = true then some r else acc

/-- Spec §4.1 wording for `next`: "the item with the smallest start among
items with start > now (ties broken by original order / first found)". -/
def specMinNext {α : Type} (so : α → Int) (now : Int) (l : List α) : Option α :=
  l.foldl (minNextStep so now) none

/-- The shared scan computes, componentwise, the last-containing fold and the
running-minimum fold over the processed (skipping `none`) node list. -/
theorem scanStep_foldl {γ α : Type} (so eo : α → Int) (now : Int) (proc : γ → Option α)
    (l : List γ) : ∀ (c n : Option α),
    l.foldl (scanStep so eo now proc) (c, n) =
      ((l.filterMap proc).foldl (lastWinsStep so eo now) c,
       (l.filterMap proc).foldl (minNextStep so now) n) := by
  induction l with
  | nil => intro c n; rfl
  | cons g t ih =>
    intro c n
    rw [List.foldl_cons]
    rcases h : proc g with _ | p
    · rw [show scanStep so eo now proc (c, n) g = (c, n) from by simp [scanStep, h]]
      rw [show List.filterMap proc (g :: t) = List.filterMap proc t from by
        simp [List.filterMap_cons, h]]
      exact ih c n
    · rw [show List.filterMap proc (g :: t) = p :: List.filterMap proc t from by
        simp [List.filterMap_cons, h]]
      rw [List.foldl_cons, List.foldl_cons]
      by_cases h1 : so p ≤ now ∧ now < eo p
      · have h2 : ¬ (now < so p ∧ ((Option.all (fun nx => decide (so p < so nx)) n) = true)) := by
          rintro ⟨hlt, -⟩
          exact absurd hlt (not_lt.mpr h1.1)
        rw [show scanStep so eo now proc (c, n) g = (some p, n) from by
          simp only [scanStep, h]
          rw [if_pos h1]]
        rw [show lastWinsStep so eo now c p = some p from by
          simp only [lastWinsStep]; rw [if_pos h1]]
        rw [show minNextStep so now n p = n from by
          simp only [minNextStep]; rw [if_neg h2]]
        exact ih (some p) n
      · by_cases h2 : now < so p ∧ ((Option.all (fun nx => decide (so p < so nx)) n) = true)
        · rw [show scanStep so eo now proc (c, n) g = (c, some p) from by
            simp only [scanStep, h]
            rw [if_neg h1, if_pos h2]]
          rw [show lastWinsStep so eo now c p = c from by
            simp only [lastWinsStep]; rw [if_neg h1]]
          rw [show minNextStep so now n p = some p from by
            simp only [minNextStep]; rw [if_pos h2]]
          exact ih c (some p)
        · rw [show scanStep so eo now proc (c, n) g = (c, n) from by
            simp only [scanStep, h]
            rw [if_neg h1, if_neg h2]]
          rw [show lastWinsStep so eo now c p = c from by
            simp only [lastWinsStep]; rw [if_neg h1]]
          rw [show minNextStep so now n p = n from by
            simp only [minNextStep]; rw [if_neg h2]]
          exact ih c n

/-- The last-wins fold finds the last matching item: it equals the first
match when scanning from the end. -/
theorem lastWins_foldl_eq {α : Type} (so eo : α → Int) (now : Int) (l : List α) :
    ∀ acc : Option α,
    l.foldl (lastWinsStep so eo now) acc =
      (l.reverse.find? fun r => decide (so r ≤ now) && decide (now < eo r)).or acc := by
  induction l with
  | nil => intro acc; rfl
  | cons a t ih =>
    intro acc
    rw [List.foldl_cons, ih (lastWinsStep so eo now acc a), List.reverse_cons,
      List.find?_append, Option.or_assoc]
    by_cases h : so a ≤ now ∧ now < eo a
    · have hb : (decide (so a ≤ now) && decide (now < eo a)) = true := by
        simp [h.1, h.2]
      rw [show lastWinsStep so eo now acc a = some a from by
        simp only [lastWinsStep]; rw [if_pos h]]
      simp [List.find?_cons, hb]
    · have hb : (decide (so a ≤ now) && decide (now < eo a)) = false := by
        rcases not_and_or.mp h with h' | h' <;> simp [h']
      rw [show lastWinsStep so eo now acc a = acc from by
        simp only [lastWinsStep]; rw [if_neg h]]
      simp [List.find?_cons, hb]

/-- The first-wins fold finds the first matching item. -/
theorem firstWins_foldl_eq {α : Type} (so eo : α → Int) (now : Int) (l : List α) :
    ∀ acc : Option α,
    l.foldl (firstWinsStep so eo now) acc =
      acc.or (l.find? fun r => decide (so r ≤ now) && decide (now < eo r)) := by
  induction l with
  | nil => intro acc; rcases acc with _ | x <;> rfl
  | cons a t ih =>
    intro acc
    rw [List.foldl_cons]
    rcases acc with _ | x
    · by_cases h : so a ≤ now ∧ now < eo a
      · have hb : (decide (so a ≤ now) && decide (now < eo a)) = true := by
          simp [h.1, h.2]
        rw [show firstWinsStep so eo now none a = some a from by
          simp only [firstWinsStep]
          rw [if_pos ⟨h, rfl⟩]]
        rw [ih (some a)]
        simp [List.find?_cons, hb]
      · have hb : (decide (so a ≤ now) && decide (now < eo a)) = false := by
          rcases not_and_or.mp h with h' | h' <;> simp [h']
        rw [show firstWinsStep so eo now none a = none from by
          simp only [firstWinsStep]
          rw [if_neg]
          rintro ⟨h1, -⟩
          exact h h1]
        rw [ih none]
        simp [List.find?_cons, hb]
    · rw [show firstWinsStep so eo now (some x) a = some x from by
        simp only [firstWinsStep]
        rw [if_neg]
        rintro ⟨-, h2⟩
        simp at h2]
      rw [ih (some x)]
      rfl

/-- Characterisation of the running-minimum fold: it returns `none` iff no
item (and no seed) starts after `now`, and otherwise an item starting after
`now` whose start is minimal among all future items, the seed included. -/
theorem minNext_foldl_spec {α : Type} (so : α → Int) (now : Int) (l : List α) :
    ∀ acc : Option α, (∀ x, acc = some x → now < so x) →
      (l.foldl (minNextStep so now) acc = none ↔ acc = none ∧ ∀ r ∈ l, ¬ now < so r)
      ∧ (∀ r, l.foldl (minNextStep so now) acc = some r →
          ((r ∈ l ∨ acc = some r) ∧ now < so r)
          ∧ (∀ x, acc = some x → so r ≤ so x)
          ∧ (∀ q ∈ l, now < so q → so r ≤ so q)) := by
  induction l with
  | nil =>
    intro acc hacc
    refine ⟨by simp, ?_⟩
    intro r hr
    refine ⟨⟨Or.inr hr, hacc r hr⟩, ?_, ?_⟩
    · intro x hx
      rw [hx] at hr
      cases hr
      exact le_refl _
    · intro q hq
      exact absurd hq (List.not_mem_nil q)
  | cons a t ih =>
    intro acc hacc
    rw [List.foldl_cons]
    by_cases hfire : now < so a ∧ ((Option.all (fun nx => decide (so a < so nx)) acc) = true)
    · -- the head becomes the new accumulator
      rw [show minNextStep so now acc a = some a from by
        simp only [minNextStep]; rw [if_pos hfire]]
      have hacc' : ∀ x, (some a : Option α) = some x → now < so x := by
        intro x hx
        cases hx
        exact hfire.1
      obtain ⟨ihn, ihs⟩ := ih (some a) hacc'
      constructor
      · constructor
        · intro hnone
          exact absurd (ihn.mp hnone).1 (Option.some_ne_none a)
        · rintro ⟨-, hall⟩
          exact absurd hfire.1 (hall a (List.mem_cons_self a t))
      · intro r hr
        obtain ⟨⟨hmem, hnow⟩, hseed, hmin⟩ := ihs r hr
        have hra : so r ≤ so a := hseed a rfl
        refine ⟨⟨?_, hnow⟩, ?_, ?_⟩
        · rcases hmem with hm | hm
          · exact Or.inl (List.mem_cons_of_mem a hm)
          · cases hm
            exact Or.inl (List.mem_cons_self a t)
        · intro x hx
          rcases hx' : acc with _ | y
          · rw [hx'] at hx; cases hx
          · rw [hx'] at hx
            cases hx
            have hax : so a < so x := by
              have hb := hfire.2
              rw [hx'] at hb
              simpa using hb
            omega
        · intro q hq hnow'
          rcases List.mem_cons.mp hq with hm | hm
          · cases hm
            exact hra
          · exact hmin q hm hnow'
    · -- the head is ignored
      rw [show minNextStep so now acc a = acc from by
        simp only [minNextStep]; rw [if_neg hfire]]
      obtain ⟨ihn, ihs⟩ := ih acc hacc
      constructor
      · constructor
        · intro hnone
          obtain ⟨h1, h2⟩ := ihn.mp hnone
          refine ⟨h1, ?_⟩
          intro r hr
          rcases List.mem_cons.mp hr with hm | hm
          · cases hm
            intro hnow
            apply hfire
            refine ⟨hnow, ?_⟩
            rw [h1]
            rfl
          · exact h2 r hm
        · rintro ⟨h1, h2⟩
          exact ihn.mpr ⟨h1, fun r hr => h2 r (List.mem_cons_of_mem a hr)⟩
      · intro r hr
        obtain ⟨⟨hmem, hnow⟩, hseed, hmin⟩ := ihs r hr
        refine ⟨⟨?_, hnow⟩, hseed, ?_⟩
        · rcases hmem with hm | hm
          · exact Or.inl (List.mem_cons_of_mem a hm)
          · exact Or.inr hm
        · intro q hq hnow'
          rcases List.mem_cons.mp hq with hm | hm
          · cases hm
            -- the head was not taken: either it is not future (contradiction)
            -- or the seeded value is already no larger
            rcases not_and_or.mp hfire with h' | h'
            · exact absurd hnow' h'
            · rcases hx : acc with _ | x
              · rw [hx] at h'
                simp at h'
              · have hxa : so x ≤ so a := by
                  rw [hx] at h'
                  simp only [Option.all_some, decide_eq_true_eq] at h'
                  omega
                have := hseed x hx
                omega
          · exact hmin q hm hnow'

/-- If no item matches the containment test, the last-wins fold is a no-op. -/
theorem lastWins_foldl_noop {α : Type} (so eo : α → Int) (now : Int) (l : List α) :
    ∀ acc : Option α, (∀ r ∈ l, ¬ (so r ≤ now ∧ now < eo r)) →
    l.foldl (lastWinsStep so eo now) acc = acc := by
  induction l with
  | nil => intro acc _; rfl
  | cons a t ih =>
    intro acc h
    rw [List.foldl_cons]
    rw [show lastWinsStep so eo now acc a = acc from by
      simp only [lastWinsStep]; rw [if_neg (h a (List.mem_cons_self a t))]]
    exact ih acc fun r hr => h r (List.mem_cons_of_mem a hr)

/-- If every item of `l` starts no earlier than the seeded minimum, the
running-minimum fold is a no-op. -/
theorem minNext_foldl_noop {α : Type} (so : α → Int) (now : Int) (l : List α) (x : α) :
    (∀ r ∈ l, so x ≤ so r) →
    l.foldl (minNextStep so now) (some x) = some x := by
  induction l with
  | nil => intro _; rfl
  | cons a t ih =>
    intro h
    rw [List.foldl_cons]
    rw [show minNextStep so now (some x) a = some x from by
      simp only [minNextStep]
      rw [if_neg]
      rintro ⟨-, hall⟩
      simp only [Option.all_some, decide_eq_true_eq] at hall
      exact absurd (h a (List.mem_cons_self a t)) (not_le.mpr hall)]
    exact ih fun r hr => h r (List.mem_cons_of_mem a hr)

/-! ## Battle schedules: `findCurrentAndNext` -/

/-- A raw node of `regularSchedules` / `xSchedules`. -/
structure BattleNode where
  startTime : Option Int
  endTime : Option Int
  regularMatchSetting : Option MatchSetting
  xMatchSetting : Option MatchSetting
deriving DecidableEq, Repr

/-- The processed node built inside `findCurrentAndNext`. -/
structure Rotation where
  startTime : Int
  endTime : Int
  rule : Rule
  stages : List VsStage
deriving DecidableEq, Repr

/-- `{ current, next }` for Regular / X Battle. -/
structure ModeState where
  current : Option Rotation
  next : Option Rotation
deriving DecidableEq, Repr

/-- The JS sort comparator `new Date(a.startTime) - new Date(b.startTime)`.
When a start time is missing the subtraction is NaN, which the engine's sort
treats as "equal"; that is mirrored by answering `true` both ways (such
nodes are skipped by the scan in any case). -/
def startTimeLe (a b : Option Int) : Bool :=
  match a, b with
  | some x, some y => decide (x ≤ y)
  | _, _ => true

/-- Rule/stage extraction of `findCurrentAndNext`, keyed on the `mode` string:
`rule = setting.vsRule || \x7bname: 'Unknown Mode'\x7d`, stages mapped to
name/image pairs. -/
def extractBattle (mode : String) (node : BattleNode) : Rule × List VsStage :=
  if mode = "regular" then
    match node.regularMatchSetting with
    | some setting => (setting.vsRule.getD ⟨"Unknown Mode"⟩, mapStages setting.vsStages)
    | none => (⟨"Unknown Mode"⟩, [])
  else if mode = "xbattle" then
    match node.xMatchSetting with
    | some setting => (setting.vsRule.getD ⟨"Unknown Mode"⟩, mapStages setting.vsStages)
    | none => (⟨"Unknown Mode"⟩, [])
  else (⟨"Unknown Mode"⟩, [])

/-- Per-node processing of `findCurrentAndNext`: the node is skipped
(`continue`) when `startTime` or `endTime` is missing, otherwise the
processed node is built. -/
def battleProc (mode : String) (node : BattleNode) : Option Rotation :=
  match node.startTime, node.endTime with
  | some startMs, some endMs =>
    some ⟨startMs, endMs, (extractBattle mode node).1, (extractBattle mode node).2⟩
  | _, _ => none

/-- `[...nodes].sort((a, b) => new Date(a.startTime) - new Date(b.startTime))` -/
def sortBattle (nodes : List BattleNode) : List BattleNode :=
  nodes.mergeSort fun a b => startTimeLe a.startTime b.startTime

/-- `findCurrentAndNext(nodes, now, mode)` of the background worker. -/
def findCurrentAndNext (nodes : List BattleNode) (now : Int) (mode : String) : ModeState :=
  if nodes.isEmpty then ⟨none, none⟩
  else
    let r := (sortBattle nodes).foldl
      (scanStep (·.startTime) (·.endTime) now (battleProc mode)) (none, none)
    ⟨r.1, r.2⟩

/-- The processed candidates the battle scan effectively ranges over. -/
def battleCandidates (mode : String) (nodes : List BattleNode) : List Rotation :=
  (sortBattle nodes).filterMap (battleProc mode)

/-- `findCurrentAndNext` = last containing window (over the sorted candidate
list) plus running-minimum future window. -/
theorem findCurrentAndNext_eq (nodes : List BattleNode) (now : Int) (mode : String) :
    findCurrentAndNext nodes now mode =
      ⟨specLastContaining (·.startTime) (·.endTime) now (battleCandidates mode nodes),
       specMinNext (·.startTime) now (battleCandidates mode nodes)⟩ := by
  unfold findCurrentAndNext battleCandidates specLastContaining specMinNext
  by_cases h : nodes.isEmpty
  · rw [if_pos h, List.isEmpty_iff.mp h]
    simp [sortBattle, List.mergeSort_nil]
  · rw [if_neg h, scanStep_foldl]

/-! ## Anarchy schedules: `findCurrentAndNextAnarchy` -/

/-- A raw node of `bankaraSchedules`; `bankaraMatchSettings` is a list with
index 0 = Series, index 1 = Open. -/
structure AnarchyNode where
  startTime : Option Int
  endTime : Option Int
  bankaraMatchSettings : Option (List MatchSetting)
deriving DecidableEq, Repr

/-- A sub-mode record produced by `extractAnarchyMode`. -/
structure AnarchySub where
  rule : Rule
  stages : List VsStage
deriving DecidableEq, Repr

/-- `extractAnarchyMode(setting)`: null on a missing setting, otherwise rule
(defaulted) and mapped stages. -/
def extractAnarchyMode (setting : Option MatchSetting) : Option AnarchySub :=
  match setting with
  | none => none
  | some s => some ⟨s.vsRule.getD ⟨"Unknown Mode"⟩, mapStages s.vsStages⟩

/-- The processed Anarchy node: denormalised top-level rule/stages (Series
first, Open as fallback) plus both sub-modes.  `open` is a reserved word in
Lean, hence `openSub`. -/
structure AnarchyRotation where
  startTime : Int
  endTime : Int
  rule : Rule
  stages : List VsStage
  series : Option AnarchySub
  openSub : Option AnarchySub
deriving DecidableEq, Repr

structure AnarchyModeState where
  current : Option AnarchyRotation
  next : Option AnarchyRotation
deriving DecidableEq, Repr

/-- Per-node processing of `findCurrentAndNextAnarchy`. -/
def anarchyProc (node : AnarchyNode) : Option AnarchyRotation :=
  match node.startTime, node.endTime with
  | some startMs, some endMs =>
    let series := extractAnarchyMode (node.bankaraMatchSettings.bind fun l => l[0]?)
    let openSub := extractAnarchyMode (node.bankaraMatchSettings.bind fun l => l[1]?)
    some ⟨startMs, endMs,
      ((series.map (·.rule)).or (openSub.map (·.rule))).getD ⟨"Unknown Mode"⟩,
      ((series.map (·.stages)).or (openSub.map (·.stages))).getD [],
      series, openSub⟩
  | _, _ => none

def sortAnarchy (nodes : List AnarchyNode) : List AnarchyNode :=
  nodes.mergeSort fun a b => startTimeLe a.startTime b.startTime

/-- `findCurrentAndNextAnarchy(nodes, now)` of the background worker. -/
def findCurrentAndNextAnarchy (nodes : List AnarchyNode) (now : Int) : AnarchyModeState :=
  if nodes.isEmpty then ⟨none, none⟩
  else
    let r := (sortAnarchy nodes).foldl
      (scanStep (·.startTime) (·.endTime) now anarchyProc) (none, none)
    ⟨r.1, r.2⟩

def anarchyCandidates (nodes : List AnarchyNode) : List AnarchyRotation :=
  (sortAnarchy nodes).filterMap anarchyProc

theorem findCurrentAndNextAnarchy_eq (nodes : List AnarchyNode) (now : Int) :
    findCurrentAndNextAnarchy nodes now =
      ⟨specLastContaining (·.startTime) (·.endTime) now (anarchyCandidates nodes),
       specMinNext (·.startTime) now (anarchyCandidates nodes)⟩ := by
  unfold findCurrentAndNextAnarchy anarchyCandidates specLastContaining specMinNext
  by_cases h : nodes.isEmpty
  · rw [if_pos h, List.isEmpty_iff.mp h]
    simp [sortAnarchy, List.mergeSort_nil]
  · rw [if_neg h, scanStep_foldl]

/-! ## Event (Challenge) schedules: `processEventSchedules` -/

structure LeagueMatchEvent where
  name : Option String
  desc : Option String
  regulation : Option String
deriving DecidableEq, Repr

structure LeagueMatchSetting where
  leagueMatchEvent : Option LeagueMatchEvent
  vsRule : Option Rule
  vsStages : Option (List FeedStage)
deriving DecidableEq, Repr

structure TimePeriod where
  startTime : Option Int
  endTime : Option Int
deriving DecidableEq, Repr

structure EventNode where
  leagueMatchSetting : Option LeagueMatchSetting
  timePeriods : Option (List TimePeriod)
deriving DecidableEq, Repr

/-- The processed event built inside `processEventSchedules`. -/
structure EventRotation where
  startTime : Int
  endTime : Int
  eventName : String
  eventDesc : String
  regulation : String
  rule : Rule
  stages : List VsStage
deriving DecidableEq, Repr

structure EventModeState where
  current : Option EventRotation
  next : Option EventRotation
deriving DecidableEq, Repr

/-- Per-period processing inside `processEventSchedules`: periods with a
missing time are skipped; the event's shared name/desc/regulation and the
setting's rule/stages are baked into every period. -/
def eventPeriodProc (info : LeagueMatchEvent) (setting : LeagueMatchSetting)
    (period : TimePeriod) : Option EventRotation :=
  match period.startTime, period.endTime with
  | some startMs, some endMs =>
    some ⟨startMs, endMs, info.name.getD "Unknown Event", info.desc.getD "",
      info.regulation.getD "", setting.vsRule.getD ⟨"Unknown Mode"⟩, mapStages setting.vsStages⟩
  | _, _ => none

/-- One iteration of the event scan.  Unlike `scanStep`, the `current` update
carries the extra `&& !current` conjunct, so the FIRST containing period wins;
the node list is also never sorted in `processEventSchedules`. -/
def eventScanStep {γ α : Type} (so eo : α → Int) (now : Int) (proc : γ → Option α)
    (acc : Option α × Option α) (g : γ) : Option α × Option α :=
  match proc g with
  | none => acc
  | some p =>
    if (so p ≤ now ∧ now < eo p) ∧ acc.1.isNone = true then (some p, acc.2)
    else if now < so p ∧ (acc.2.all fun nx => decide (so p < so nx)) = true then (acc.1, some p)
    else acc

theorem eventScanStep_foldl {γ α : Type} (so eo : α → Int) (now : Int) (proc : γ → Option α)
    (l : List γ) : ∀ (c n : Option α),
    l.foldl (eventScanStep so eo now proc) (c, n) =
      ((l.filterMap proc).foldl (firstWinsStep so eo now) c,
       (l.filterMap proc).foldl (minNextStep so now) n) := by
  induction l with
  | nil => intro c n; rfl
  | cons g t ih =>
    intro c n
    rw [List.foldl_cons]
    rcases h : proc g with _ | p
    · rw [show eventScanStep so eo now proc (c, n) g = (c, n) from by simp [eventScanStep, h]]
      rw [show List.filterMap proc (g :: t) = List.filterMap proc t from by
        simp [List.filterMap_cons, h]]
      exact ih c n
    · rw [show List.filterMap proc (g :: t) = p :: List.filterMap proc t from by
        simp [List.filterMap_cons, h]]
      rw [List.foldl_cons, List.foldl_cons]
      by_cases h1 : (so p ≤ now ∧ now < eo p) ∧ c.isNone = true
      · have h2 : ¬ (now < so p ∧ ((Option.all (fun nx => decide (so p < so nx)) n) = true)) := by
          rintro ⟨hlt, -⟩
          exact absurd hlt (not_lt.mpr h1.1.1)
        rw [show eventScanStep so eo now proc (c, n) g = (some p, n) from by
          simp only [eventScanStep, h]
          rw [if_pos h1]]
        rw [show firstWinsStep so eo now c p = some p from by
          simp only [firstWinsStep]; rw [if_pos h1]]
        rw [show minNextStep so now n p = n from by
          simp only [minNextStep]; rw [if_neg h2]]
        exact ih (some p) n
      · by_cases h2 : now < so p ∧ ((Option.all (fun nx => decide (so p < so nx)) n) = true)
        · rw [show eventScanStep so eo now proc (c, n) g = (c, some p) from by
            simp only [eventScanStep, h]
            rw [if_neg h1, if_pos h2]]
          rw [show firstWinsStep so eo now c p = c from by
            simp only [firstWinsStep]; rw [if_neg h1]]
          rw [show minNextStep so now n p = some p from by
            simp only [minNextStep]; rw [if_pos h2]]
          exact ih c (some p)
        · rw [show eventScanStep so eo now proc (c, n) g = (c, n) from by
            simp only [eventScanStep, h]
            rw [if_neg h1, if_neg h2]]
          rw [show firstWinsStep so eo now c p = c from by
            simp only [firstWinsStep]; rw [if_neg h1]]
          rw [show minNextStep so now n p = n from by
            simp only [minNextStep]; rw [if_neg h2]]
          exact ih c n

/-- Candidate rotations contributed by one event node, in scan order. -/
def eventPeriodList (event : EventNode) : List EventRotation :=
  match event.leagueMatchSetting with
  | none => []
  | some setting =>
    match setting.leagueMatchEvent with
    | none => []
    | some info => (event.timePeriods.getD []).filterMap (eventPeriodProc info setting)

/-- All candidate rotations of the event scan, in scan order (events in feed
order, their periods in feed order; no sorting happens here). -/
def eventCandidates (nodes : List EventNode) : List EventRotation :=
  nodes.flatMap eventPeriodList

/-- `processEventSchedules(nodes, now)` of the background worker: nested loop
over events with `continue` on `!setting?.leagueMatchEvent`, then over
`event.timePeriods || []`. -/
def processEventSchedules (nodes : List EventNode) (now : Int) : EventModeState :=
  let r := nodes.foldl (fun acc event =>
    match event.leagueMatchSetting with
    | none => acc
    | some setting =>
      match setting.leagueMatchEvent with
      | none => acc
      | some info =>
        (event.timePeriods.getD []).foldl
          (eventScanStep (·.startTime) (·.endTime) now (eventPeriodProc info setting)) acc)
    (none, none)
  ⟨r.1, r.2⟩

theorem eventFold_eq (now : Int) (nodes : List EventNode) : ∀ (c n : Option EventRotation),
    nodes.foldl (fun acc event =>
      match event.leagueMatchSetting with
      | none => acc
      | some setting =>
        match setting.leagueMatchEvent with
        | none => acc
        | some info =>
          (event.timePeriods.getD []).foldl
            (eventScanStep (·.startTime) (·.endTime) now (eventPeriodProc info setting)) acc)
      (c, n) =
      ((eventCandidates nodes).foldl (firstWinsStep (·.startTime) (·.endTime) now) c,
       (eventCandidates nodes).foldl (minNextStep (·.startTime) now) n) := by
  induction nodes with
  | nil => intro c n; rfl
  | cons ev t ih =>
    intro c n
    rw [List.foldl_cons]
    rw [show eventCandidates (ev :: t) = eventPeriodList ev ++ eventCandidates t from by
      simp [eventCandidates, List.flatMap_cons]]
    rw [List.foldl_append, List.foldl_append]
    rcases hls : ev.leagueMatchSetting with _ | setting
    · rw [show eventPeriodList ev = [] from by simp [eventPeriodList, hls]]
      simp only [hls, List.foldl_nil]
      exact ih c n
    · rcases hev : setting.leagueMatchEvent with _ | info
      · rw [show eventPeriodList ev = [] from by simp [eventPeriodList, hls, hev]]
        simp only [hls, hev, List.foldl_nil]
        exact ih c n
      · rw [show eventPeriodList ev
            = (ev.timePeriods.getD []).filterMap (eventPeriodProc info setting) from by
          simp [eventPeriodList, hls, hev]]
        simp only [hls, hev]
        rw [eventScanStep_foldl]
        exact ih _ _

/-- `processEventSchedules` = FIRST containing period (in scan order, no
sorting) plus running-minimum future period. -/
theorem processEventSchedules_eq (nodes : List EventNode) (now : Int) :
    processEventSchedules nodes now =
      ⟨specFirstContaining (·.startTime) (·.endTime) now (eventCandidates nodes),
       specMinNext (·.startTime) now (eventCandidates nodes)⟩ := by
  unfold processEventSchedules specFirstContaining specMinNext
  rw [eventFold_eq]

/-! ## Salmon Run: `salmonRun.js` -/

structure CoopStage where
  name : Option String
  image : Option String
deriving DecidableEq, Repr

structure CoopWeapon where
  name : Option String
  image : Option String
deriving DecidableEq, Repr

structure CoopBoss where
  name : Option String
  image : Option String
deriving DecidableEq, Repr

structure CoopSetting where
  coopStage : Option CoopStage
  weapons : Option (List (Option CoopWeapon))
  boss : Option CoopBoss
deriving DecidableEq, Repr

/-- A raw node of `coopGroupingSchedule.regularSchedules` / `bigRunSchedules`. -/
structure CoopNode where
  startTime : Option Int
  endTime : Option Int
  setting : Option CoopSetting
deriving DecidableEq, Repr

/-- The processed Salmon Run schedule entry built in `processSalmonRunData`. -/
structure SalmonRotation where
  startTime : Int
  endTime : Int
  stage : VsStage
  weapons : List VsStage
  boss : Option String
  bossImage : Option String
  isBigRun : Bool
deriving DecidableEq, Repr

structure SalmonState where
  current : Option SalmonRotation
  next : Option SalmonRotation
deriving DecidableEq, Repr

/-- The entry pushed onto `allSchedules` for one coop node (skipped when a
time is missing); identical for the Big Run and regular lists apart from the
`isBigRun` tag. -/
def coopEntry (isBigRun : Bool) (schedule : CoopNode) : Option SalmonRotation :=
  match schedule.startTime, schedule.endTime with
  | some startMs, some endMs =>
    let setting := schedule.setting
    some ⟨startMs, endMs,
      ⟨(((setting.bind (·.coopStage)).bind (·.name)).getD "Unknown Stage"),
        ((setting.bind (·.coopStage)).bind (·.image))⟩,
      (((setting.bind (·.weapons)).getD []).map fun w =>
        ⟨((w.bind (·.name)).getD "Unknown Weapon"), w.bind (·.image)⟩),
      ((setting.bind (·.boss)).bind (·.name)),
      ((setting.bind (·.boss)).bind (·.image)),
      isBigRun⟩
  | _, _ => none

/-- Wrapper for a `\x7b nodes: [...] \x7d` collection whose `nodes` field may
be missing or not list-shaped (`none` covers both). -/
structure NodesWrap (α : Type) where
  nodes : Option (List α)
deriving DecidableEq

structure CoopGrouping where
  regularSchedules : Option (NodesWrap CoopNode)
  bigRunSchedules : Option (NodesWrap CoopNode)
deriving DecidableEq

/-- `allSchedules` before sorting: Big Run entries first, then regular
entries, mirroring the push order of `processSalmonRunData`. -/
def salmonCandidatesUnsorted (coop : CoopGrouping) : List SalmonRotation :=
  (((coop.bigRunSchedules.bind (·.nodes)).getD []).filterMap (coopEntry true))
    ++ (((coop.regularSchedules.bind (·.nodes)).getD []).filterMap (coopEntry false))

def salmonLe (a b : SalmonRotation) : Bool :=
  decide (a.startTime ≤ b.startTime)

/-- `allSchedules` after `allSchedules.sort((a, b) => new Date(a.startTime) -
new Date(b.startTime))` (every entry has both times here, so the comparator
is a plain key comparison). -/
def salmonCandidates (coop : CoopGrouping) : List SalmonRotation :=
  (salmonCandidatesUnsorted coop).mergeSort salmonLe

/-- The current/next loop of `processSalmonRunData`: last-wins for `current`,
first future entry for `next`, and `break` on the second future entry. -/
def salmonScan (now : Int) :
    Option SalmonRotation → Option SalmonRotation → List SalmonRotation → SalmonState
  | current, next, [] => ⟨current, next⟩
  | current, next, schedule :: rest =>
    if schedule.startTime ≤ now ∧ now < schedule.endTime then
      salmonScan now (some schedule) next rest
    else if now < schedule.startTime then
      match next with
      | none => salmonScan now current (some schedule) rest
      | some _ => ⟨current, next⟩
    else
      salmonScan now current next rest

/-- `createSalmonRunTestData()`: synthetic fallback whose current rotation
starts at the processing instant. -/
def createSalmonRunTestData (now : Int) : SalmonState :=
  ⟨some ⟨now, now + 12 * 60 * 60 * 1000,
      ⟨"Gone Fission Hydroplant", none⟩,
      [⟨"Splattershot", none⟩, ⟨"Splat Roller", none⟩,
       ⟨"E-liter 4K", none⟩, ⟨"Splat Dualies", none⟩],
      some "Cohozuna", none, false⟩,
    some ⟨now + 36 * 60 * 60 * 1000, now + 60 * 60 * 60 * 1000,
      ⟨"Spawning Grounds", none⟩,
      [⟨"N-ZAP '85", none⟩, ⟨"Slosher", none⟩,
       ⟨"Heavy Splatling", none⟩, ⟨"Tri-Stringer", none⟩],
      some "Horrorboros", none, false⟩⟩

/-- `processSalmonRunData(data)`: falls back to the synthetic data when the
`coopGroupingSchedule` section is missing or when the scan finds neither a
current nor an upcoming rotation. -/
def processSalmonRunData (coopSection : Option CoopGrouping) (now : Int) : SalmonState :=
  match coopSection with
  | none => createSalmonRunTestData now
  | some coop =>
    let r := salmonScan now none none (salmonCandidates coop)
    if r.current = none ∧ r.next = none then createSalmonRunTestData now else r

/-- On a start-time-sorted list, the break-style salmon scan computes the
same two folds as the shared scan, provided any seeded `next` value starts
no later than every listed entry. -/
theorem salmonScan_eq (now : Int) (l : List SalmonRotation) :
    ∀ (c n : Option SalmonRotation),
    l.Pairwise (fun a b => a.startTime ≤ b.startTime) →
    (∀ x, n = some x → ∀ r ∈ l, x.startTime ≤ r.startTime) →
    salmonScan now c n l =
      ⟨l.foldl (lastWinsStep (·.startTime) (·.endTime) now) c,
       l.foldl (minNextStep (·.startTime) now) n⟩ := by
  induction l with
  | nil => intro c n _ _; rfl
  | cons s rest ih =>
    intro c n hsorted hn
    have hsrest : rest.Pairwise (fun a b => a.startTime ≤ b.startTime) :=
      (List.pairwise_cons.mp hsorted).2
    have hhead : ∀ r ∈ rest, s.startTime ≤ r.startTime :=
      (List.pairwise_cons.mp hsorted).1
    rw [List.foldl_cons, List.foldl_cons]
    by_cases h1 : s.startTime ≤ now ∧ now < s.endTime
    · rw [show salmonScan now c n (s :: rest) = salmonScan now (some s) n rest from by
        simp only [salmonScan]
        rw [if_pos h1]]
      rw [show lastWinsStep (·.startTime) (·.endTime) now c s = some s from by
        simp only [lastWinsStep]; rw [if_pos h1]]
      rw [show minNextStep (·.startTime) now n s = n from by
        simp only [minNextStep]
        rw [if_neg]
        rintro ⟨hlt, -⟩
        exact absurd hlt (not_lt.mpr h1.1)]
      exact ih (some s) n hsrest fun x hx r hr => hn x hx r (List.mem_cons_of_mem s hr)
    · by_cases h2 : now < s.startTime
      · rw [show lastWinsStep (·.startTime) (·.endTime) now c s = c from by
          simp only [lastWinsStep]; rw [if_neg h1]]
        rcases n with _ | x
        · rw [show salmonScan now c none (s :: rest) = salmonScan now c (some s) rest from by
            simp only [salmonScan]
            rw [if_neg h1, if_pos h2]]
          rw [show minNextStep (·.startTime) now none s = some s from by
            simp only [minNextStep]
            rw [if_pos ⟨h2, rfl⟩]]
          exact ih c (some s) hsrest fun y hy r hr => by
            cases hy
            exact hhead r hr
        · -- break: the rest of the list cannot change either accumulator
          have hxs : x.startTime ≤ s.startTime :=
            hn x rfl s (List.mem_cons_self s rest)
          rw [show salmonScan now c (some x) (s :: rest) = ⟨c, some x⟩ from by
            simp only [salmonScan]
            rw [if_neg h1, if_pos h2]]
          rw [show minNextStep (·.startTime) now (some x) s = some x from by
            simp only [minNextStep]
            rw [if_neg]
            rintro ⟨-, hall⟩
            simp only [Option.all_some, decide_eq_true_eq] at hall
            omega]
          rw [lastWins_foldl_noop _ _ _ _ c fun r hr hcont =>
            absurd hcont.1 (not_le.mpr (lt_of_lt_of_le h2 (hhead r hr)))]
          rw [minNext_foldl_noop _ _ _ _ fun r hr =>
            le_trans hxs (hhead r hr)]
      · rw [show salmonScan now c n (s :: rest) = salmonScan now c n rest from by
          simp only [salmonScan]
          rw [if_neg h1, if_neg h2]]
        rw [show lastWinsStep (·.startTime) (·.endTime) now c s = c from by
          simp only [lastWinsStep]; rw [if_neg h1]]
        rw [show minNextStep (·.startTime) now n s = n from by
          simp only [minNextStep]
          rw [if_neg]
          rintro ⟨hlt, -⟩
          exact h2 hlt]
        exact ih c n hsrest fun x hhx r hr => hn x hhx r (List.mem_cons_of_mem s hr)

/-- The sorted salmon candidate list is pairwise ordered by start time. -/
theorem salmonCandidates_sorted (coop : CoopGrouping) :
    (salmonCandidates coop).Pairwise (fun a b => a.startTime ≤ b.startTime) := by
  have h := @List.sorted_mergeSort SalmonRotation salmonLe
    (fun a b c hab hbc => by
      simp only [salmonLe, decide_eq_true_eq] at *
      omega)
    (fun a b => by
      simp only [salmonLe]
      rcases le_total a.startTime b.startTime with h | h <;> simp [h])
    (salmonCandidatesUnsorted coop)
  exact h.imp fun hab => by simpa [salmonLe] using hab

/-- The salmon selector, expressed through the two spec folds. -/
theorem salmonScan_spec (coop : CoopGrouping) (now : Int) :
    salmonScan now none none (salmonCandidates coop) =
      ⟨specLastContaining (·.startTime) (·.endTime) now (salmonCandidates coop),
       specMinNext (·.startTime) now (salmonCandidates coop)⟩ := by
  rw [salmonScan_eq now _ none none (salmonCandidates_sorted coop)
    (fun x hx => by cases hx)]
  rfl

/-! ## Feed shape, validation and `processRotationData` -/

/-- A processed Splatfest team.  The `rgba(...)` rendering of `t.color` is
modelled opaquely as its rendered string (`none` when `t.color` is absent);
no claim depends on the colour arithmetic. -/
structure FestTeam where
  teamName : String
  color : Option String
  image : Option String
deriving DecidableEq, Repr

/-- The `currentFest` record of the feed. -/
structure CurrentFest where
  title : Option String
  state : Option String
  startTime : Option Int
  endTime : Option Int
  teams : Option (List FestTeam)
deriving DecidableEq, Repr

/-- A raw node of `festSchedules`; `festMatchSettings` records the
truthiness of `node.festMatchSettings`. -/
structure FestNode where
  festMatchSettings : Bool
  startTime : Option Int
  endTime : Option Int
deriving DecidableEq, Repr

/-- The Splatfest record produced by `processSplatfestData`. -/
structure Splatfest where
  title : String
  state : String
  startTime : Option Int
  endTime : Option Int
  teams : List FestTeam
deriving DecidableEq, Repr

/-- The `data.data` object of the feed.  A `nodes` field that is missing or
not list-shaped is `none` in its `NodesWrap`. -/
structure ApiData where
  regularSchedules : Option (NodesWrap BattleNode)
  bankaraSchedules : Option (NodesWrap AnarchyNode)
  xSchedules : Option (NodesWrap BattleNode)
  eventSchedules : Option (NodesWrap EventNode)
  coopGroupingSchedule : Option CoopGrouping
  currentFest : Option CurrentFest
  festSchedules : Option (NodesWrap FestNode)
deriving DecidableEq

/-- The whole feed response (`data` root may be absent). -/
structure ApiResponse where
  data : Option ApiData
deriving DecidableEq

/-- `d[key] && !Array.isArray(d[key].nodes)` fails validation; a key passes
when absent or when its `nodes` is list-shaped. -/
def nodesOk {α : Type} : Option (NodesWrap α) → Bool
  | none => true
  | some w => w.nodes.isSome

/-- `validateApiResponse(data)`: root object required; the three
battle-schedule keys and, when `coopGroupingSchedule` is present, its two
coop keys must each carry a list-shaped `nodes` when present (the loops of
the source are unrolled here because the node types differ). -/
def validateApiResponse (resp : ApiResponse) : Bool :=
  match resp.data with
  | none => false
  | some d =>
    nodesOk d.regularSchedules && nodesOk d.bankaraSchedules && nodesOk d.xSchedules
    && (match d.coopGroupingSchedule with
        | none => true
        | some coop => nodesOk coop.regularSchedules && nodesOk coop.bigRunSchedules)

/-- `processSplatfestData(apiDataRoot)`: an active `currentFest` takes
precedence; otherwise the FIRST node of `festSchedules` (in feed order) with
truthy `festMatchSettings` and a future start is reported as `SCHEDULED`
with an empty team list. -/
def processSplatfestData (d : ApiData) (now : Int) : Option Splatfest :=
  match d.currentFest with
  | some currentFest =>
    some ⟨currentFest.title.getD "Splatfest", currentFest.state.getD "ACTIVE",
      currentFest.startTime, currentFest.endTime,
      (currentFest.teams.getD []).map fun t => ⟨t.teamName, t.color, t.image⟩⟩
  | none =>
    ((d.festSchedules.bind (·.nodes)).getD []).findSome? fun node =>
      if node.festMatchSettings = true ∧ (node.startTime.any fun s => decide (now < s)) = true
      then some ⟨"Upcoming Splatfest", "SCHEDULED", node.startTime, node.endTime, []⟩
      else none

/-- `apiDataRoot.festSchedules?.nodes || []`. -/
def festNodesOf (d : ApiData) : List FestNode :=
  (d.festSchedules.bind (·.nodes)).getD []

/-- The processed battle snapshot (`regular`/`anarchy`/`xbattle`/`challenge`
plus the optional Splatfest). -/
structure BattleData where
  regular : ModeState
  anarchy : AnarchyModeState
  xbattle : ModeState
  challenge : EventModeState
  splatfest : Option Splatfest
deriving DecidableEq

/-- `createTestData()`: the fixed synthetic placeholder snapshot covering
Regular/Anarchy/X.  The source object carries no `challenge`/`splatfest`
keys; reading those yields undefined, modelled as the empty state here. -/
def createTestData (now : Int) : BattleData :=
  let twoHoursLater := now + 2 * 60 * 60 * 1000
  let fourHoursLater := now + 4 * 60 * 60 * 1000
  { regular := ⟨some ⟨now, twoHoursLater, ⟨"Turf War"⟩,
        [⟨"Scorch Gorge", none⟩, ⟨"Mahi-Mahi Resort", none⟩]⟩,
      some ⟨twoHoursLater, fourHoursLater, ⟨"Turf War"⟩,
        [⟨"Hagglefish Market", none⟩, ⟨"MakoMart", none⟩]⟩⟩,
    anarchy := ⟨some ⟨now, twoHoursLater, ⟨"Splat Zones"⟩,
        [⟨"Mincemeat Metalworks", none⟩, ⟨"Undertow Spillway", none⟩], none, none⟩,
      some ⟨twoHoursLater, fourHoursLater, ⟨"Tower Control"⟩,
        [⟨"Hammerhead Bridge", none⟩, ⟨"Museum d'Alfonsino", none⟩], none, none⟩⟩,
    xbattle := ⟨some ⟨now, twoHoursLater, ⟨"Clam Blitz"⟩,
        [⟨"Inkblot Art Academy", none⟩, ⟨"Sturgeon Shipyard", none⟩]⟩,
      some ⟨twoHoursLater, fourHoursLater, ⟨"Rainmaker"⟩,
        [⟨"Eeltail Alley", none⟩, ⟨"Wahoo World", none⟩]⟩⟩,
    challenge := ⟨none, none⟩,
    splatfest := none }

/-- `processRotationData(data)`: null on validation failure, otherwise the
per-mode selectors over whichever schedule keys are present (a missing key
leaves that mode's state empty). -/
def processRotationData (resp : ApiResponse) (now : Int) : Option BattleData :=
  if validateApiResponse resp = false then none
  else
    match resp.data with
    | none => none
    | some d =>
      some {
        regular :=
          match d.regularSchedules.bind (·.nodes) with
          | some ns => findCurrentAndNext ns now "regular"
          | none => ⟨none, none⟩,
        anarchy :=
          match d.bankaraSchedules.bind (·.nodes) with
          | some ns => findCurrentAndNextAnarchy ns now
          | none => ⟨none, none⟩,
        xbattle :=
          match d.xSchedules.bind (·.nodes) with
          | some ns => findCurrentAndNext ns now "xbattle"
          | none => ⟨none, none⟩,
        challenge :=
          match d.eventSchedules.bind (·.nodes) with
          | some ns => processEventSchedules ns now
          | none => ⟨none, none⟩,
        splatfest := processSplatfestData d now }

/-- `processRotationData(apiData) || createTestData()` in `fetchAllData`. -/
def battleDataOf (resp : ApiResponse) (now : Int) : BattleData :=
  (processRotationData resp now).getD (createTestData now)

/-- A successful `findSome?` splits the list at the first producing element. -/
theorem findSome?_eq_some_split {γ β : Type} (f : γ → Option β) (l : List γ) (b : β) :
    l.findSome? f = some b →
    ∃ l1 a l2, l = l1 ++ a :: l2 ∧ f a = some b ∧ ∀ m ∈ l1, f m = none := by
  induction l with
  | nil => intro h; cases h
  | cons a t ih =>
    intro h
    rcases hfa : f a with _ | v
    · rw [List.findSome?_cons, hfa] at h
      obtain ⟨l1, x, l2, rfl, hx, hnone⟩ := ih h
      exact ⟨a :: l1, x, l2, rfl, hx, by
        intro m hm
        rcases List.mem_cons.mp hm with hm | hm
        · cases hm; exact hfa
        · exact hnone m hm⟩
    · rw [List.findSome?_cons, hfa] at h
      cases h
      exact ⟨[], a, t, rfl, hfa, by intro m hm; cases hm⟩

/-! ## The merged snapshot as the scheduler and notifier see it

`fetchAllData` merges the battle snapshot and the salmon state into one
object and later code reads it dynamically (`rotationData?.[mode]?.current`),
touching only `startTime` / `endTime` / `rule` / `stages` / `stage` /
`isBigRun`.  That dynamic view is modelled by a uniform `Entry` with the
fields that are read (absent fields are `none` / `false`). -/

structure Entry where
  startTime : Int
  endTime : Int
  rule : Option Rule
  stages : Option (List VsStage)
  stage : Option VsStage
  isBigRun : Bool
deriving DecidableEq, Repr

structure EntryState where
  current : Option Entry
  next : Option Entry
deriving DecidableEq, Repr

/-- The merged `rotationData` object. -/
structure RotationData where
  regular : EntryState
  anarchy : EntryState
  xbattle : EntryState
  challenge : EntryState
  salmon : EntryState
  splatfest : Option Splatfest
deriving DecidableEq, Repr

/-- `rotationData?.[mode]`: dynamic string indexing; an unknown key reads as
undefined, i.e. an empty state for every later `?.` access. -/
def modeEntry (d : RotationData) (mode : String) : EntryState :=
  if mode = "regular" then d.regular
  else if mode = "anarchy" then d.anarchy
  else if mode = "xbattle" then d.xbattle
  else if mode = "challenge" then d.challenge
  else if mode = "salmon" then d.salmon
  else ⟨none, none⟩

/-! ## `scheduleNextRefresh` (spec §4.4 RefreshScheduler) -/

/-- `Utils.API.REFRESH_INTERVAL` (minutes). -/
def REFRESH_INTERVAL : Int := 30

/-- The mode list scanned by `scheduleNextRefresh`. -/
def scheduleModes : List String :=
  ["regular", "anarchy", "xbattle", "challenge", "salmon"]

/-- The loop of `scheduleNextRefresh` computing `nextRefreshTime`:
per mode with a current entry, candidate `refreshTime = endTime + 1*60*1000`,
kept when `refreshTime > now && (!nextRefreshTime || refreshTime <
nextRefreshTime)`. -/
def computeNextRefreshTime (d : RotationData) (now : Int) : Option Int :=
  scheduleModes.foldl (fun nextRefreshTime mode =>
    match (modeEntry d mode).current with
    | some current =>
      let refreshTime := current.endTime + 1 * 60 * 1000
      if now < refreshTime ∧ (nextRefreshTime.all fun t => decide (refreshTime < t)) = true
      then some refreshTime
      else nextRefreshTime
    | none => nextRefreshTime) none

/-- The two named one-shot alarms; a `some` value is an armed alarm
(`smartRefresh` at an absolute time, `refreshRotations` after a delay in
minutes). -/
structure TimerState where
  smartRefresh : Option Int
  refreshRotations : Option Int
deriving DecidableEq, Repr

/-- `scheduleNextRefresh(rotationData)`: always `chrome.alarms.clear('smartRefresh')`
first, then arm the smart timer at the computed time, or else the fixed
fallback timer.  The `refreshRotations` alarm is never cleared here. -/
def scheduleNextRefresh (ts : TimerState) (d : RotationData) (now : Int) : TimerState :=
  let cleared : TimerState := { ts with smartRefresh := none }
  match computeNextRefreshTime d now with
  | some t => { cleared with smartRefresh := some t }
  | none => { cleared with refreshRotations := some REFRESH_INTERVAL }

/-- The candidate wake times `current.endTime + 1 minute` over all modes. -/
def refreshCandidates (d : RotationData) : List Int :=
  scheduleModes.filterMap fun mode =>
    (modeEntry d mode).current.map fun current => current.endTime + 1 * 60 * 1000

/-! ## `isDataStillValid` (spec §4.6) -/

/-- The mode list scanned by `isDataStillValid` — note: no `challenge`. -/
def validityModes : List String := ["regular", "anarchy", "xbattle", "salmon"]

/-- `isDataStillValid(rotationData)`: two early-return loops, first over
`current?.endTime > now`, then over the existence of `next?.startTime`
(an entry always carries its start time, so that is `isSome`). -/
def isDataStillValid (d : RotationData) (now : Int) : Bool :=
  (validityModes.any fun mode =>
    (modeEntry d mode).current.any fun current => decide (now < current.endTime))
  || (validityModes.any fun mode => (modeEntry d mode).next.isSome)

/-! ## The failure path of `fetchAllData` (spec §4.5 / §7) -/

/-- Observable effects of the `catch` branch of `fetchAllData`. -/
structure FailureOutcome where
  setOffline : Bool
  retryDelayMinutes : Option Int
  success : Bool
deriving DecidableEq, Repr

/-- The `catch` branch: with a cached snapshot that is still valid, set the
offline flag, arm a 5-minute `refreshRotations` retry and report success
(stale-while-revalidate); otherwise report failure. -/
def fetchFailurePath (cached : Option RotationData) (now : Int) : FailureOutcome :=
  match cached with
  | some rotationData =>
    if isDataStillValid rotationData now = true then ⟨true, some 5, true⟩
    else ⟨false, none, false⟩
  | none => ⟨false, none, false⟩

/-- Timer effect of one whole fetch cycle (success runs the scheduler; a
failure with a valid cache arms the 5-minute retry without touching the
smart timer; a hard failure arms nothing). -/
inductive CycleOutcome
  | success (d : RotationData)
  | failValidCache
  | failHard
deriving DecidableEq

def cycleTimerEffect (ts : TimerState) (o : CycleOutcome) (now : Int) : TimerState :=
  match o with
  | .success d => scheduleNextRefresh ts d now
  | .failValidCache => { ts with refreshRotations := some 5 }
  | .failHard => ts

/-! ## `sendRotationNotifications` (spec §4.7 NotificationDiffer) -/

/-- The synced notification preferences. -/
structure NotifySettings where
  enableNotifications : Bool
  notifyRegular : Bool
  notifyAnarchy : Bool
  notifyXbattle : Bool
  notifySalmon : Bool
deriving DecidableEq, Repr

/-- One created notification; `mode` records the `modeInfo.key` the id is
built from. -/
structure NotificationEvent where
  mode : String
  id : String
  title : String
  message : String
  priority : Nat
deriving DecidableEq, Repr

/-- `isNewRotation(newCurrent, oldCurrent)`. -/
def isNewRotation : Option Entry → Option Entry → Bool
  | none, _ => false
  | some _, none => true
  | some newCurrent, some oldCurrent => decide (newCurrent.startTime ≠ oldCurrent.startTime)

/-- The per-mode loop table of `sendRotationNotifications`. -/
def notifyModeTable : List (String × String × (NotifySettings → Bool)) :=
  [("regular", "Regular", fun s => s.notifyRegular),
   ("anarchy", "Anarchy", fun s => s.notifyAnarchy),
   ("xbattle", "X Battle", fun s => s.notifyXbattle),
   ("salmon", "Salmon Run", fun s => s.notifySalmon)]

/-- `newCurrent.rule?.name || 'N/A'`. -/
def ruleNameOr (rule : Option Rule) : String :=
  match rule with
  | some r => if r.name = "" then "N/A" else r.name
  | none => "N/A"

/-- `newCurrent.stages?.map(s => s.name).join(', ') || 'N/A'`. -/
def stagesTextOr (stages : Option (List VsStage)) : String :=
  match stages with
  | some l =>
    let joined := String.intercalate ", " (l.map (·.name))
    if joined = "" then "N/A" else joined
  | none => "N/A"

/-- `newCurrent.stage?.name || 'N/A'`. -/
def stageNameOr (stage : Option VsStage) : String :=
  match stage with
  | some st => if st.name = "" then "N/A" else st.name
  | none => "N/A"

/-- The notification created for one firing mode (title, message and the
`rotation-<mode>-<startTime>` id). -/
def buildNotification (key displayName : String) (newCurrent : Entry) : NotificationEvent :=
  let stageText := stageNameOr newCurrent.stage
  let ruleText := ruleNameOr newCurrent.rule
  let stagesText := stagesTextOr newCurrent.stages
  let startText := toString newCurrent.startTime
  let title :=
    if key = "salmon" ∧ newCurrent.isBigRun = true then "BIG RUN IS HERE!"
    else s!"New {displayName} Rotation!"
  let message :=
    if key = "salmon" then s!"Stage: {stageText}"
    else s!"Mode: {ruleText}\nStages: {stagesText}"
  ⟨key, s!"rotation-{key}-{startText}", title, message, 1⟩

/-- `oldRotations?.[key]?.current`. -/
def oldCurrentOf (oldRotations : Option RotationData) (key : String) : Option Entry :=
  (oldRotations.map fun o => (modeEntry o key).current).join

/-- The body of the per-mode loop of `sendRotationNotifications`: fires
(creates a notification) iff the mode's preference flag is set and
`isNewRotation(newCurrent, oldCurrent)` holds. -/
def notifyDecision (newRotations : RotationData) (oldRotations : Option RotationData)
    (settings : NotifySettings) (modeInfo : String × String × (NotifySettings → Bool)) :
    Option NotificationEvent :=
  let newCurrent := (modeEntry newRotations modeInfo.1).current
  let oldCurrent := oldCurrentOf oldRotations modeInfo.1
  if modeInfo.2.2 settings = true ∧ isNewRotation newCurrent oldCurrent = true then
    match newCurrent with
    | some entry => some (buildNotification modeInfo.1 modeInfo.2.1 entry)
    | none => none
  else none

/-- `sendRotationNotifications(newRotations, oldRotations)` under the given
synced settings; returns the notifications created, in loop order. -/
def sendRotationNotifications (newRotations : RotationData) (oldRotations : Option RotationData)
    (settings : NotifySettings) : List NotificationEvent :=
  if settings.enableNotifications = false then []
  else notifyModeTable.filterMap (notifyDecision newRotations oldRotations settings)

/-! ## Supporting lemmas for the scheduler and validity checks -/

theorem option_any_eq_true {α : Type} (p : α → Bool) (o : Option α) :
    o.any p = true ↔ ∃ x, o = some x ∧ p x = true := by
  cases o <;> simp

/-- If every listed item is not in the future, the running-minimum fold
started from `none` stays `none`. -/
theorem minNext_foldl_none {α : Type} (so : α → Int) (now : Int) (l : List α)
    (h : ∀ r ∈ l, ¬ now < so r) :
    l.foldl (minNextStep so now) none = none :=
  ((minNext_foldl_spec so now l none (fun x hx => by cases hx)).1).mpr ⟨rfl, h⟩

/-- The scheduler loop is the running-minimum fold over the candidate wake
times (skipping modes without a current entry). -/
theorem schedFold_absorb (d : RotationData) (now : Int) (ms : List String) :
    ∀ acc : Option Int,
    ms.foldl (fun nextRefreshTime mode =>
      match (modeEntry d mode).current with
      | some current =>
        let refreshTime := current.endTime + 1 * 60 * 1000
        if now < refreshTime ∧ (nextRefreshTime.all fun t => decide (refreshTime < t)) = true
        then some refreshTime
        else nextRefreshTime
      | none => nextRefreshTime) acc =
    (ms.filterMap fun mode =>
      (modeEntry d mode).current.map fun current => current.endTime + 1 * 60 * 1000).foldl
      (minNextStep (fun t => t) now) acc := by
  induction ms with
  | nil => intro acc; rfl
  | cons m t ih =>
    intro acc
    rw [List.foldl_cons, List.filterMap_cons]
    rcases h : (modeEntry d m).current with _ | current
    · simp only [h]
      exact ih acc
    · simp only [h, Option.map_some']
      rw [List.foldl_cons]
      exact ih _

theorem computeNextRefreshTime_eq (d : RotationData) (now : Int) :
    computeNextRefreshTime d now =
      (refreshCandidates d).foldl (minNextStep (fun t => t) now) none :=
  schedFold_absorb d now scheduleModes none

/-- C2: for every snapshot and instant, the scheduler computes per-mode
candidates `current.endTime + 1 minute`, arms the smart timer at the minimum
candidate that is still strictly in the future, and otherwise (no current
entry anywhere, or every candidate past) arms the fixed 30-minute fallback
timer. -/
theorem C2_refresh_scheduler (ts : TimerState) (d : RotationData) (now : Int) :
    (∀ t, computeNextRefreshTime d now = some t →
        (scheduleNextRefresh ts d now).smartRefresh = some t
        ∧ (scheduleNextRefresh ts d now).refreshRotations = ts.refreshRotations
        ∧ t ∈ refreshCandidates d ∧ now < t
        ∧ ∀ c ∈ refreshCandidates d, now < c → t ≤ c)
    ∧ (computeNextRefreshTime d now = none ↔ ∀ c ∈ refreshCandidates d, ¬ now < c)
    ∧ (computeNextRefreshTime d now = none →
        scheduleNextRefresh ts d now = ⟨none, some REFRESH_INTERVAL⟩) := by
  have hchar := minNext_foldl_spec (fun t => t) now (refreshCandidates d) none
    (fun x hx => by cases hx)
  refine ⟨?_, ?_, ?_⟩
  · intro t ht
    have ht' : (refreshCandidates d).foldl (minNextStep (fun t => t) now) none = some t := by
      rw [← computeNextRefreshTime_eq]
      exact ht
    obtain ⟨⟨hmem, hnow⟩, -, hmin⟩ := hchar.2 t ht'
    refine ⟨?_, ?_, ?_, hnow, hmin⟩
    · simp [scheduleNextRefresh, ht]
    · simp [scheduleNextRefresh, ht]
    · rcases hmem with hm | hm
      · exact hm
      · cases hm
  · rw [computeNextRefreshTime_eq]
    rw [hchar.1]
    simp
  · intro ht
    simp [scheduleNextRefresh, ht]

def c2wData : RotationData :=
  { regular := ⟨some ⟨0, 1000, none, none, none, false⟩, none⟩,
    anarchy := ⟨none, none⟩, xbattle := ⟨none, none⟩,
    challenge := ⟨none, none⟩, salmon := ⟨none, none⟩, splatfest := none }

theorem C2_refresh_scheduler_witness :
    (scheduleNextRefresh ⟨none, none⟩ c2wData 0).smartRefresh = some 61000
    ∧ (scheduleNextRefresh ⟨none, none⟩ c2wData 0).refreshRotations = none
    ∧ (61000 : Int) ∈ refreshCandidates c2wData ∧ (0 : Int) < 61000
    ∧ ∀ c ∈ refreshCandidates c2wData, 0 < c → 61000 ≤ c :=
  (C2_refresh_scheduler ⟨none, none⟩ c2wData 0).1 61000 (by decide)

/-- C3: when the fetch fails and a cached snapshot exists that is still
valid, the cycle sets the offline flag, arms a 5-minute retry and reports
success; with no valid cache it reports failure. -/
theorem C3_stale_while_revalidate (cached : Option RotationData) (now : Int) :
    (∀ d, cached = some d → isDataStillValid d now = true →
        fetchFailurePath cached now = ⟨true, some 5, true⟩)
    ∧ ((fetchFailurePath cached now).success = true ↔
        ∃ d, cached = some d ∧ isDataStillValid d now = true)
    ∧ ((fetchFailurePath cached now).success = false →
        fetchFailurePath cached now = ⟨false, none, false⟩) := by
  refine ⟨?_, ?_, ?_⟩
  · intro d hd hvalid
    rw [hd]
    simp [fetchFailurePath, hvalid]
  · rcases cached with _ | d
    · simp [fetchFailurePath]
    · by_cases h : isDataStillValid d now = true
      · simp [fetchFailurePath, h]
      · simp [fetchFailurePath, h]
  · rcases cached with _ | d
    · intro _; rfl
    · by_cases h : isDataStillValid d now = true <;> simp [fetchFailurePath, h]

def c3wData : RotationData :=
  { regular := ⟨none, some ⟨100, 200, none, none, none, false⟩⟩,
    anarchy := ⟨none, none⟩, xbattle := ⟨none, none⟩,
    challenge := ⟨none, none⟩, salmon := ⟨none, none⟩, splatfest := none }

theorem C3_stale_while_revalidate_witness :
    fetchFailurePath (some c3wData) 0 = ⟨true, some 5, true⟩ :=
  (C3_stale_while_revalidate (some c3wData) 0).1 c3wData rfl (by decide)

/-- C4 (amended): the validity check consults only the regular, anarchy,
xbattle and salmon modes — true iff one of THOSE has `current.endTime > now`
or a `next` entry; the challenge mode (and splatfest) are not consulted. -/
theorem C4_validity_amended (d : RotationData) (now : Int) :
    (isDataStillValid d now = true ↔
      ((∃ mode ∈ validityModes,
          ∃ current, (modeEntry d mode).current = some current ∧ now < current.endTime)
       ∨ (∃ mode ∈ validityModes, (modeEntry d mode).next.isSome = true)))
    ∧ (∀ (c : EntryState) (f : Option Splatfest),
        isDataStillValid { d with challenge := c, splatfest := f } now
          = isDataStillValid d now) := by
  constructor
  · simp only [isDataStillValid, Bool.or_eq_true, List.any_eq_true, option_any_eq_true,
      decide_eq_true_eq]
  · intro c f
    rfl

def c4data : RotationData :=
  { regular := ⟨none, none⟩, anarchy := ⟨none, none⟩, xbattle := ⟨none, none⟩,
    challenge := ⟨some ⟨0, 100, none, none, none, false⟩, none⟩,
    salmon := ⟨none, none⟩, splatfest := none }

/-- C4 counterexample: a snapshot whose challenge mode has
`current.endTime > now` (and nothing else) is reported NOT valid, though the
claim ("any mode") requires `true`. -/
theorem C4_counterexample :
    isDataStillValid c4data 0 = false
    ∧ (modeEntry c4data "challenge").current = some ⟨0, 100, none, none, none, false⟩
    ∧ ((0 : Int) < (100 : Int)) := by
  refine ⟨by decide, by decide, by decide⟩

/-- C7 (amended): every scheduler run clears the smart timer first and arms
exactly one timer, but the `refreshRotations` fallback/retry timer is never
cleared, so it can stay armed alongside a newly armed smart timer. -/
theorem C7_timers_amended (ts : TimerState) (d : RotationData) (now : Int) :
    (scheduleNextRefresh ts d now).smartRefresh = computeNextRefreshTime d now
    ∧ ((computeNextRefreshTime d now).isSome = true →
        (scheduleNextRefresh ts d now).refreshRotations = ts.refreshRotations)
    ∧ (computeNextRefreshTime d now = none →
        scheduleNextRefresh ts d now = ⟨none, some REFRESH_INTERVAL⟩)
    ∧ (cycleTimerEffect ts CycleOutcome.failValidCache now = ⟨ts.smartRefresh, some 5⟩)
    ∧ (cycleTimerEffect ts CycleOutcome.failHard now = ts) := by
  refine ⟨?_, ?_, ?_, rfl, rfl⟩
  · rcases h : computeNextRefreshTime d now with _ | t <;> simp [scheduleNextRefresh, h]
  · intro hs
    rcases h : computeNextRefreshTime d now with _ | t
    · rw [h] at hs
      cases hs
    · simp [scheduleNextRefresh, h]
  · intro h
    simp [scheduleNextRefresh, h]

def c7data : RotationData :=
  { regular := ⟨some ⟨0, 1000, none, none, none, false⟩, none⟩,
    anarchy := ⟨none, none⟩, xbattle := ⟨none, none⟩,
    challenge := ⟨none, none⟩, salmon := ⟨none, none⟩, splatfest := none }

/-- C7 counterexample: a failed cycle (valid cache) arms the 5-minute retry;
a following successful cycle arms the smart timer without clearing it —
both named timers end up armed at once. -/
theorem C7_counterexample :
    ((cycleTimerEffect (cycleTimerEffect ⟨none, none⟩ CycleOutcome.failValidCache 0)
        (CycleOutcome.success c7data) 0).smartRefresh = some 61000)
    ∧ ((cycleTimerEffect (cycleTimerEffect ⟨none, none⟩ CycleOutcome.failValidCache 0)
        (CycleOutcome.success c7data) 0).refreshRotations = some 5) := by
  refine ⟨by decide, by decide⟩

def c7wData : RotationData :=
  { regular := ⟨none, none⟩, anarchy := ⟨none, none⟩, xbattle := ⟨none, none⟩,
    challenge := ⟨none, none⟩, salmon := ⟨none, none⟩, splatfest := none }

theorem C7_timers_amended_witness :
    scheduleNextRefresh ⟨some 42, some 7⟩ c7wData 0 = ⟨none, some REFRESH_INTERVAL⟩ :=
  (C7_timers_amended ⟨some 42, some 7⟩ c7wData 0).2.2.1 (by decide)

/-- C9: the Salmon Run processor never returns a state with both `current`
and `next` empty — a missing coop section, or a schedule with no window
containing `now` and none starting after it, yields the synthetic fallback
whose current rotation starts at the processing instant and whose current
and next are both present. -/
theorem C9_salmon_never_empty (coopSection : Option CoopGrouping) (now : Int) :
    (¬((processSalmonRunData coopSection now).current = none
        ∧ (processSalmonRunData coopSection now).next = none))
    ∧ (coopSection = none →
        processSalmonRunData coopSection now = createSalmonRunTestData now)
    ∧ (∀ coop, coopSection = some coop →
        (∀ r ∈ salmonCandidatesUnsorted coop,
          ¬(r.startTime ≤ now ∧ now < r.endTime) ∧ ¬ now < r.startTime) →
        processSalmonRunData coopSection now = createSalmonRunTestData now)
    ∧ ((createSalmonRunTestData now).current.map (fun r => r.startTime) = some now
        ∧ (createSalmonRunTestData now).current.isSome = true
        ∧ (createSalmonRunTestData now).next.isSome = true) := by
  refine ⟨?_, ?_, ?_, rfl, rfl, rfl⟩
  · rcases coopSection with _ | coop
    · simp [processSalmonRunData, createSalmonRunTestData]
    · simp only [processSalmonRunData]
      by_cases h : (salmonScan now none none (salmonCandidates coop)).current = none
          ∧ (salmonScan now none none (salmonCandidates coop)).next = none
      · rw [if_pos h]
        simp [createSalmonRunTestData]
      · rw [if_neg h]
        exact h
  · rintro rfl
    rfl
  · rintro coop rfl hnone
    simp only [processSalmonRunData]
    have hmem : ∀ r ∈ salmonCandidates coop,
        ¬(r.startTime ≤ now ∧ now < r.endTime) ∧ ¬ now < r.startTime := by
      intro r hr
      exact hnone r ((List.mergeSort_perm (salmonCandidatesUnsorted coop) salmonLe).mem_iff.mp hr)
    rw [salmonScan_eq now (salmonCandidates coop) none none (salmonCandidates_sorted coop)
      (fun x hx => by cases hx)]
    rw [lastWins_foldl_noop _ _ _ _ none (fun r hr => (hmem r hr).1)]
    rw [minNext_foldl_none _ _ _ (fun r hr => (hmem r hr).2)]
    rw [if_pos ⟨rfl, rfl⟩]

theorem C9_salmon_never_empty_witness :
    processSalmonRunData none 0 = createSalmonRunTestData 0 :=
  (C9_salmon_never_empty none 0).2.1 rfl

/-! ## Notification differ lemmas, C5 and C10 -/

theorem buildNotification_mode (key displayName : String) (entry : Entry) :
    (buildNotification key displayName entry).mode = key := rfl

theorem isNewRotation_some_iff (entry : Entry) (oldCurrent : Option Entry) :
    isNewRotation (some entry) oldCurrent = true ↔
      (oldCurrent = none ∨ ∃ o, oldCurrent = some o ∧ entry.startTime ≠ o.startTime) := by
  cases oldCurrent <;> simp [isNewRotation]

theorem notifyDecision_eq_some (newR : RotationData) (oldR : Option RotationData)
    (settings : NotifySettings) (modeInfo : String × String × (NotifySettings → Bool))
    (ev : NotificationEvent) :
    notifyDecision newR oldR settings modeInfo = some ev ↔
      modeInfo.2.2 settings = true ∧
      ∃ entry, (modeEntry newR modeInfo.1).current = some entry ∧
        isNewRotation (some entry) (oldCurrentOf oldR modeInfo.1) = true ∧
        ev = buildNotification modeInfo.1 modeInfo.2.1 entry := by
  unfold notifyDecision
  by_cases hc : modeInfo.2.2 settings = true
      ∧ isNewRotation (modeEntry newR modeInfo.1).current (oldCurrentOf oldR modeInfo.1) = true
  · rw [if_pos hc]
    rcases hcur : (modeEntry newR modeInfo.1).current with _ | entry
    · constructor
      · intro h
        cases h
      · rintro ⟨-, entry, he, -, -⟩
        cases he
    · constructor
      · intro h
        cases h
        refine ⟨hc.1, entry, rfl, ?_, rfl⟩
        have := hc.2
        rw [hcur] at this
        exact this
      · rintro ⟨-, entry2, he, -, rfl⟩
        cases he
        rfl
  · rw [if_neg hc]
    constructor
    · intro h
      cases h
    · rintro ⟨hflag, entry, hcur, hnew, rfl⟩
      refine absurd ⟨hflag, ?_⟩ hc
      rw [hcur]
      exact hnew

theorem mem_sendRotationNotifications (newR : RotationData) (oldR : Option RotationData)
    (settings : NotifySettings) (ev : NotificationEvent) :
    ev ∈ sendRotationNotifications newR oldR settings ↔
      settings.enableNotifications = true ∧
      ∃ modeInfo ∈ notifyModeTable,
        notifyDecision newR oldR settings modeInfo = some ev := by
  unfold sendRotationNotifications
  by_cases hg : settings.enableNotifications = false
  · rw [if_pos hg]
    simp [hg]
  · rw [if_neg hg]
    rw [List.mem_filterMap]
    have htrue : settings.enableNotifications = true := by
      cases h : settings.enableNotifications
      · exact absurd h hg
      · rfl
    simp [htrue]

/-- C5: with the global flag and a mode's preference flag enabled, a
notification fires for that mode iff the new snapshot's current exists AND
(the old current is absent OR the startTimes differ); an unchanged
startTime never re-fires. -/
theorem C5_notification_diff (newR : RotationData) (oldR : Option RotationData)
    (settings : NotifySettings) (mi : String × String × (NotifySettings → Bool))
    (hg : settings.enableNotifications = true)
    (hmem : mi ∈ notifyModeTable) (hflag : mi.2.2 settings = true) :
    (∃ ev ∈ sendRotationNotifications newR oldR settings, ev.mode = mi.1) ↔
      (∃ entry, (modeEntry newR mi.1).current = some entry ∧
        (oldCurrentOf oldR mi.1 = none
         ∨ ∃ oldEntry, oldCurrentOf oldR mi.1 = some oldEntry
             ∧ entry.startTime ≠ oldEntry.startTime)) := by
  constructor
  · rintro ⟨ev, hev, hmode⟩
    obtain ⟨-, mi', hmi', hdec⟩ :=
      (mem_sendRotationNotifications newR oldR settings ev).mp hev
    obtain ⟨-, entry, hcur, hnew, rfl⟩ :=
      (notifyDecision_eq_some newR oldR settings mi' _).mp hdec
    have hkey : mi'.1 = mi.1 := (buildNotification_mode _ _ _).symm.trans hmode
    rw [hkey] at hcur hnew
    exact ⟨entry, hcur, (isNewRotation_some_iff entry _).mp hnew⟩
  · rintro ⟨entry, hcur, hold⟩
    refine ⟨buildNotification mi.1 mi.2.1 entry, ?_, buildNotification_mode _ _ _⟩
    refine (mem_sendRotationNotifications newR oldR settings _).mpr ⟨hg, mi, hmem, ?_⟩
    exact (notifyDecision_eq_some newR oldR settings mi _).mpr
      ⟨hflag, entry, hcur, (isNewRotation_some_iff entry _).mpr hold, rfl⟩

def c5wEntry : Entry := ⟨500, 900, none, none, none, false⟩

def c5wData : RotationData :=
  { regular := ⟨some c5wEntry, none⟩, anarchy := ⟨none, none⟩, xbattle := ⟨none, none⟩,
    challenge := ⟨none, none⟩, salmon := ⟨none, none⟩, splatfest := none }

def c5wSettings : NotifySettings := ⟨true, true, true, true, true⟩

theorem C5_notification_diff_witness :
    ∃ ev ∈ sendRotationNotifications c5wData none c5wSettings, ev.mode = "regular" :=
  (C5_notification_diff c5wData none c5wSettings
      ("regular", "Regular", fun s => s.notifyRegular) rfl (List.Mem.head _) rfl).mpr
    ⟨c5wEntry, rfl, Or.inl rfl⟩

/-- C10: the notification differ only ever emits events for the regular,
anarchy, xbattle and salmon modes, and its output is entirely independent of
the snapshots' challenge mode and splatfest fields. -/
theorem C10_notification_modes (newR : RotationData) (oldR : Option RotationData)
    (settings : NotifySettings) :
    (∀ ev ∈ sendRotationNotifications newR oldR settings,
        ev.mode = "regular" ∨ ev.mode = "anarchy" ∨ ev.mode = "xbattle" ∨ ev.mode = "salmon")
    ∧ (∀ (c oldC : EntryState) (f oldF : Option Splatfest),
        sendRotationNotifications { newR with challenge := c, splatfest := f }
            (oldR.map fun o => { o with challenge := oldC, splatfest := oldF }) settings
          = sendRotationNotifications newR oldR settings) := by
  constructor
  · intro ev hev
    obtain ⟨-, mi, hmi, hdec⟩ :=
      (mem_sendRotationNotifications newR oldR settings ev).mp hev
    obtain ⟨-, entry, -, -, rfl⟩ :=
      (notifyDecision_eq_some newR oldR settings mi _).mp hdec
    rw [buildNotification_mode]
    simp only [notifyModeTable, List.mem_cons, List.not_mem_nil, or_false] at hmi
    rcases hmi with rfl | rfl | rfl | rfl
    · exact Or.inl rfl
    · exact Or.inr (Or.inl rfl)
    · exact Or.inr (Or.inr (Or.inl rfl))
    · exact Or.inr (Or.inr (Or.inr rfl))
  · intro c oldC f oldF
    rcases oldR with _ | o <;> rfl

theorem C10_notification_modes_witness :
    sendRotationNotifications
        { c5wData with challenge := ⟨some c5wEntry, none⟩, splatfest := none }
        none c5wSettings
      = sendRotationNotifications c5wData none c5wSettings :=
  (C10_notification_modes c5wData none c5wSettings).2
    ⟨some c5wEntry, none⟩ ⟨some c5wEntry, none⟩ none none

/-! ## Validation lemmas, C6 and C8 -/

theorem nodesOk_false_iff {α : Type} (w : Option (NodesWrap α)) :
    nodesOk w = false ↔ ∃ x, w = some x ∧ x.nodes = none := by
  rcases w with _ | x
  · simp [nodesOk]
  · rcases hx : x.nodes with _ | ns <;> simp [nodesOk, hx]

theorem validateApiResponse_some_eq (d : ApiData) :
    validateApiResponse ⟨some d⟩ = false ↔
      nodesOk d.regularSchedules = false ∨ nodesOk d.bankaraSchedules = false
      ∨ nodesOk d.xSchedules = false
      ∨ ∃ coop, d.coopGroupingSchedule = some coop ∧
          (nodesOk coop.regularSchedules = false ∨ nodesOk coop.bigRunSchedules = false) := by
  show (nodesOk d.regularSchedules && nodesOk d.bankaraSchedules && nodesOk d.xSchedules
      && (match d.coopGroupingSchedule with
          | none => true
          | some coop => nodesOk coop.regularSchedules && nodesOk coop.bigRunSchedules))
      = false ↔ _
  rcases hcg : d.coopGroupingSchedule with _ | coop
  · simp only [Bool.and_eq_false_iff, Bool.true_eq_false, or_false, hcg]
    constructor
    · rintro ((h | h) | h) <;> tauto
    · rintro (h | h | h | ⟨coop, hc, -⟩)
      · tauto
      · tauto
      · tauto
      · cases hc
  · simp only [Bool.and_eq_false_iff, hcg, Option.some.injEq]
    constructor
    · rintro (((h | h) | h) | h)
      · tauto
      · tauto
      · tauto
      · exact Or.inr (Or.inr (Or.inr ⟨coop, rfl, h⟩))
    · rintro (h | h | h | ⟨coop2, hc, h⟩)
      · tauto
      · tauto
      · tauto
      · cases hc
        exact Or.inr h

/-- C6 (amended): the rotation processor fails (null) exactly when the feed
lacks a root data object, OR one of the three battle-schedule keys is
present without a list-shaped nodes collection, OR — beyond what the claim
says — `coopGroupingSchedule` is present with one of its two coop keys
present without a list-shaped nodes collection.  On failure the caller
substitutes the fixed synthetic placeholder snapshot; a merely missing
schedule key yields an empty mode state rather than an error. -/
theorem C6_validation_amended (resp : ApiResponse) (now : Int) :
    (processRotationData resp now = none ↔ validateApiResponse resp = false)
    ∧ (validateApiResponse resp = false ↔
        (resp.data = none ∨ ∃ d, resp.data = some d ∧
          ((∃ w, d.regularSchedules = some w ∧ w.nodes = none)
           ∨ (∃ w, d.bankaraSchedules = some w ∧ w.nodes = none)
           ∨ (∃ w, d.xSchedules = some w ∧ w.nodes = none)
           ∨ (∃ coop, d.coopGroupingSchedule = some coop ∧
               ((∃ w, coop.regularSchedules = some w ∧ w.nodes = none)
                ∨ (∃ w, coop.bigRunSchedules = some w ∧ w.nodes = none))))))
    ∧ (processRotationData resp now = none → battleDataOf resp now = createTestData now)
    ∧ (∀ d b, resp.data = some d → processRotationData resp now = some b →
        (d.regularSchedules = none → b.regular = ⟨none, none⟩)
        ∧ (d.bankaraSchedules = none → b.anarchy = ⟨none, none⟩)
        ∧ (d.xSchedules = none → b.xbattle = ⟨none, none⟩)) := by
  obtain ⟨rdata⟩ := resp
  rcases rdata with _ | d
  · refine ⟨by simp [processRotationData, validateApiResponse], ?_, ?_, ?_⟩
    · simp [validateApiResponse]
    · intro _
      rfl
    · rintro d b hd
      cases hd
  · refine ⟨?_, ?_, ?_, ?_⟩
    · by_cases hv : validateApiResponse ⟨some d⟩ = false
      · simp [processRotationData, hv]
      · simp [processRotationData, hv]
    · rw [validateApiResponse_some_eq d]
      constructor
      · intro h
        refine Or.inr ⟨d, rfl, ?_⟩
        rcases h with h | h | h | ⟨coop, hc, h | h⟩
        · exact Or.inl ((nodesOk_false_iff _).mp h)
        · exact Or.inr (Or.inl ((nodesOk_false_iff _).mp h))
        · exact Or.inr (Or.inr (Or.inl ((nodesOk_false_iff _).mp h)))
        · exact Or.inr (Or.inr (Or.inr ⟨coop, hc, Or.inl ((nodesOk_false_iff _).mp h)⟩))
        · exact Or.inr (Or.inr (Or.inr ⟨coop, hc, Or.inr ((nodesOk_false_iff _).mp h)⟩))
      · rintro (h | ⟨d2, hd, h⟩)
        · cases h
        · cases hd
          rcases h with h | h | h | ⟨coop, hc, h | h⟩
          · exact Or.inl ((nodesOk_false_iff _).mpr h)
          · exact Or.inr (Or.inl ((nodesOk_false_iff _).mpr h))
          · exact Or.inr (Or.inr (Or.inl ((nodesOk_false_iff _).mpr h)))
          · exact Or.inr (Or.inr (Or.inr ⟨coop, hc, Or.inl ((nodesOk_false_iff _).mpr h)⟩))
          · exact Or.inr (Or.inr (Or.inr ⟨coop, hc, Or.inr ((nodesOk_false_iff _).mpr h)⟩))
    · intro h
      unfold battleDataOf
      rw [h]
      rfl
    · rintro d2 b hd hb
      cases hd
      unfold processRotationData at hb
      by_cases hv : validateApiResponse ⟨some d⟩ = false
      · rw [if_pos hv] at hb
        cases hb
      · rw [if_neg hv] at hb
        cases hb
        refine ⟨?_, ?_, ?_⟩ <;> intro hkey <;> simp [hkey]

def c6resp : ApiResponse :=
  ⟨some ⟨none, none, none, none, some ⟨some ⟨none⟩, none⟩, none, none⟩⟩

/-- C6 counterexample: a feed with a data root, none of the three
battle-schedule keys present, but a `coopGroupingSchedule.regularSchedules`
without a list-shaped `nodes` fails validation — though the claim says the
processor fails EXACTLY on a missing root or a malformed battle-schedule
key. -/
theorem C6_counterexample :
    validateApiResponse c6resp = false
    ∧ (∃ d, c6resp.data = some d ∧ d.regularSchedules = none
        ∧ d.bankaraSchedules = none ∧ d.xSchedules = none)
    ∧ processRotationData c6resp 0 = none
    ∧ battleDataOf c6resp 0 = createTestData 0 := by
  exact ⟨rfl, ⟨_, rfl, rfl, rfl, rfl⟩, rfl, rfl⟩

def c6wResp : ApiResponse := ⟨some ⟨none, none, none, none, none, none, none⟩⟩

theorem C6_validation_amended_witness :
    (⟨⟨none, none⟩, ⟨none, none⟩, ⟨none, none⟩, ⟨none, none⟩, none⟩ : BattleData).regular
      = ⟨none, none⟩ :=
  ((C6_validation_amended c6wResp 0).2.2.2 ⟨none, none, none, none, none, none, none⟩
      ⟨⟨none, none⟩, ⟨none, none⟩, ⟨none, none⟩, ⟨none, none⟩, none⟩ rfl rfl).1 rfl

/-- The fest-schedule scan guard, in semantic form. -/
theorem festGuard_iff (node : FestNode) (now : Int) :
    (node.festMatchSettings = true ∧ (node.startTime.any fun s => decide (now < s)) = true) ↔
      (node.festMatchSettings = true ∧ ∃ s, node.startTime = some s ∧ now < s) := by
  rw [option_any_eq_true]
  simp

/-- C8 (amended): the active-festival record takes precedence; otherwise the
FIRST festival-schedule node in feed order (not the earliest-starting one)
with live settings and a future start is reported as SCHEDULED with an empty
team list; with neither, the festival entry is absent. -/
theorem C8_splatfest_amended (d : ApiData) (now : Int) :
    (∀ currentFest, d.currentFest = some currentFest →
        processSplatfestData d now = some ⟨currentFest.title.getD "Splatfest",
          currentFest.state.getD "ACTIVE", currentFest.startTime, currentFest.endTime,
          (currentFest.teams.getD []).map fun t => ⟨t.teamName, t.color, t.image⟩⟩)
    ∧ (d.currentFest = none →
        ((processSplatfestData d now = none ↔
            ∀ node ∈ festNodesOf d,
              ¬(node.festMatchSettings = true ∧ ∃ s, node.startTime = some s ∧ now < s))
         ∧ (∀ f, processSplatfestData d now = some f →
              f.title = "Upcoming Splatfest" ∧ f.state = "SCHEDULED" ∧ f.teams = []
              ∧ ∃ l1 node l2, festNodesOf d = l1 ++ node :: l2
                  ∧ node.festMatchSettings = true ∧ (∃ s, node.startTime = some s ∧ now < s)
                  ∧ f.startTime = node.startTime ∧ f.endTime = node.endTime
                  ∧ ∀ m ∈ l1,
                      ¬(m.festMatchSettings = true ∧ ∃ s, m.startTime = some s ∧ now < s)))) := by
  constructor
  · intro currentFest hcf
    unfold processSplatfestData
    rw [hcf]
  · intro hcf
    have hunfold : processSplatfestData d now =
        (festNodesOf d).findSome? (fun node =>
          if node.festMatchSettings = true ∧ (node.startTime.any fun s => decide (now < s)) = true
          then some ⟨"Upcoming Splatfest", "SCHEDULED", node.startTime, node.endTime, []⟩
          else none) := by
      unfold processSplatfestData festNodesOf
      rw [hcf]
    constructor
    · rw [hunfold, List.findSome?_eq_none_iff]
      constructor
      · intro h node hnode hguard
        have hres := h node hnode
        rw [if_pos ((festGuard_iff node now).mpr hguard)] at hres
        cases hres
      · intro h node hnode
        rw [if_neg]
        intro hguard
        exact h node hnode ((festGuard_iff node now).mp hguard)
    · intro f hf
      rw [hunfold] at hf
      obtain ⟨l1, node, l2, hsplit, hnode, hl1⟩ := findSome?_eq_some_split _ _ _ hf
      by_cases hguard : node.festMatchSettings = true
          ∧ (node.startTime.any fun s => decide (now < s)) = true
      · rw [if_pos hguard] at hnode
        cases hnode
        have hg := (festGuard_iff node now).mp hguard
        refine ⟨rfl, rfl, rfl, l1, node, l2, hsplit, hg.1, hg.2, rfl, rfl, ?_⟩
        intro m hm hmg
        have hres := hl1 m hm
        rw [if_pos ((festGuard_iff m now).mpr hmg)] at hres
        cases hres
      · rw [if_neg hguard] at hnode
        cases hnode

def c8data : ApiData :=
  ⟨none, none, none, none, none, none,
    some ⟨some [⟨true, some 200, some 300⟩, ⟨true, some 100, some 150⟩]⟩⟩

/-- C8 counterexample: with no active festival, two future schedule nodes
with live settings in feed order (starts 200 then 100), the code reports the
FIRST one (start 200), not the earliest future-starting one (start 100). -/
theorem C8_counterexample :
    (processSplatfestData c8data 0).map (fun f => f.startTime) = some (some 200)
    ∧ festNodesOf c8data = [⟨true, some 200, some 300⟩, ⟨true, some 100, some 150⟩]
    ∧ ((100 : Int) < (200 : Int)) ∧ ((0 : Int) < (100 : Int)) := by
  exact ⟨by decide, rfl, by decide, by decide⟩

def c8wFest : CurrentFest := ⟨some "Chill Season", some "FIRST_HALF", some 10, some 20, some []⟩

def c8wData : ApiData := ⟨none, none, none, none, none, some c8wFest, none⟩

theorem C8_splatfest_amended_witness :
    processSplatfestData c8wData 0 =
      some ⟨"Chill Season", "FIRST_HALF", some 10, some 20, []⟩ :=
  (C8_splatfest_amended c8wData 0).1 c8wFest rfl

/-! ## C1: the current/next selectors -/

/-- C1 (amended): for the battle, anarchy and salmon selectors, `current` is
the window containing `now` (start ≤ now < end) with the later-sorted one
winning on overlap, and `next` is the window with the smallest start
strictly after `now` (first found wins ties).  The event/challenge selector
computes `next` the same way but keeps the FIRST containing period in scan
order for `current` and never sorts its nodes. -/
theorem C1_selector_semantics (now : Int) :
    (∀ (nodes : List BattleNode) (mode : String),
        findCurrentAndNext nodes now mode =
          ⟨specLastContaining (fun r : Rotation => r.startTime) (fun r => r.endTime) now
             (battleCandidates mode nodes),
           specMinNext (fun r : Rotation => r.startTime) now (battleCandidates mode nodes)⟩)
    ∧ (∀ nodes : List AnarchyNode,
        findCurrentAndNextAnarchy nodes now =
          ⟨specLastContaining (fun r : AnarchyRotation => r.startTime) (fun r => r.endTime) now
             (anarchyCandidates nodes),
           specMinNext (fun r : AnarchyRotation => r.startTime) now (anarchyCandidates nodes)⟩)
    ∧ (∀ nodes : List EventNode,
        processEventSchedules nodes now =
          ⟨specFirstContaining (fun r : EventRotation => r.startTime) (fun r => r.endTime) now
             (eventCandidates nodes),
           specMinNext (fun r : EventRotation => r.startTime) now (eventCandidates nodes)⟩)
    ∧ (∀ coop : CoopGrouping,
        salmonScan now none none (salmonCandidates coop) =
          ⟨specLastContaining (fun r : SalmonRotation => r.startTime) (fun r => r.endTime) now
             (salmonCandidates coop),
           specMinNext (fun r : SalmonRotation => r.startTime) now (salmonCandidates coop)⟩)
    ∧ (∀ (α : Type) (so eo : α → Int) (l : List α),
        specLastContaining so eo now l =
          l.reverse.find? (fun r => decide (so r ≤ now) && decide (now < eo r))
        ∧ specFirstContaining so eo now l =
          l.find? (fun r => decide (so r ≤ now) && decide (now < eo r)))
    ∧ (∀ (α : Type) (so : α → Int) (l : List α),
        (specMinNext so now l = none ↔ ∀ r ∈ l, ¬ now < so r)
        ∧ (∀ r, specMinNext so now l = some r →
            r ∈ l ∧ now < so r ∧ ∀ q ∈ l, now < so q → so r ≤ so q)) := by
  refine ⟨fun nodes mode => findCurrentAndNext_eq nodes now mode,
    fun nodes => findCurrentAndNextAnarchy_eq nodes now,
    fun nodes => processEventSchedules_eq nodes now,
    fun coop => salmonScan_spec coop now, ?_, ?_⟩
  · intro α so eo l
    constructor
    · rw [specLastContaining, lastWins_foldl_eq, Option.or_none]
    · rw [specFirstContaining, firstWins_foldl_eq, Option.none_or]
  · intro α so l
    have h := minNext_foldl_spec so now l none (fun x hx => by cases hx)
    constructor
    · rw [specMinNext, h.1]
      simp
    · intro r hr
      obtain ⟨⟨hmem, hnow⟩, -, hmin⟩ := h.2 r hr
      refine ⟨?_, hnow, hmin⟩
      rcases hmem with hm | hm
      · exact hm
      · cases hm

def c1events : List EventNode :=
  [⟨some ⟨some ⟨some "Event A", none, none⟩, some ⟨"Turf War"⟩, some []⟩,
     some [⟨some 0, some 10⟩, ⟨some 5, some 10⟩]⟩]

/-- C1 counterexample: two periods of one event both contain `now = 5`
(windows `[0,10)` and `[5,10)`); the event selector keeps the FIRST
containing period (start 0), while the claim requires the later-sorted
containing window (start 5, the candidate list being already sorted) to
win. -/
theorem C1_counterexample :
    ((processEventSchedules c1events 5).current.map fun r => r.startTime) = some 0
    ∧ ((specLastContaining (fun r : EventRotation => r.startTime) (fun r => r.endTime) 5
        (eventCandidates c1events)).map fun r => r.startTime) = some 5
    ∧ List.Pairwise (fun a b : EventRotation => a.startTime ≤ b.startTime)
        (eventCandidates c1events) := by
  exact ⟨by decide, by decide, by decide⟩

theorem C1_selector_semantics_witness :
    findCurrentAndNext [] 0 "regular" =
      ⟨specLastContaining (fun r : Rotation => r.startTime) (fun r => r.endTime) 0
         (battleCandidates "regular" []),
       specMinNext (fun r : Rotation => r.startTime) 0 (battleCandidates "regular" [])⟩ :=
  (C1_selector_semantics 0).1 [] "regular"

end RotTrack
